import Mathlib

/-!
Shallow embedding of src/src/JsonRpcEngine.ts.

The engine processes JSON-RPC requests through a middleware stack.  JS
object-identity matters for two behaviours the source relies on (the shallow
request copy at _handle, and middleware mutating the request they receive),
so request objects and params objects live in an explicit store and are
passed by index, mirroring JS references.  Middleware are user code, not
part of the source; they are modelled as a small description language that
covers the behaviours the engine contract reacts to: mutating the request
or the response, returning a cleanup handler or a non-function, calling the
end callback (with or without an argument), throwing arbitrary values, and
continuing to act (mutate, return, throw) after a successful end call, so
that the first-wins resolution of the runner deferred is represented.  The
JS truthiness tests of the source (on the propagated error, on the response
error slot, and on the returned handler) are modelled as truthiness of the
corresponding values, not as mere presence.
-/

/-- Model of JSON values (the Json type of the source). -/
inductive Json : Type where
  | null : Json
  | bool : Bool → Json
  | num : Int → Json
  | str : String → Json
  | arr : List Json → Json
  | obj : List (String × Json) → Json

/-- Model of the JS typeof operator on the values of Json; note that null
and arrays have typeof object in JS. -/
def jsTypeof : Json → String
  | Json.null => "object"
  | Json.bool _ => "boolean"
  | Json.num _ => "number"
  | Json.str _ => "string"
  | Json.arr _ => "object"
  | Json.obj _ => "object"

/-- Model of the JS typeof operator for an optional value, where none stands
for undefined (for example an absent method property). -/
def jsTypeofOpt : Option Json → String
  | none => "undefined"
  | some v => jsTypeof v

/-- Model of JS truthiness for Json values: null, false, 0 and the empty
string are falsy, everything else (including arrays and objects) is truthy. -/
def jsTruthyJson : Json → Bool
  | Json.null => false
  | Json.bool b => b
  | Json.num n => !(n == 0)
  | Json.str s => !(s == "")
  | Json.arr _ => true
  | Json.obj _ => true

/-- Model of JsonRpcId (number or string); absence (void) is an Option
around this type. -/
inductive RpcId : Type where
  | num : Int → RpcId
  | str : String → RpcId

/-- The method property of a request object: either a string, or some other
value (none stands for an absent property, that is undefined). -/
inductive MethodField : Type where
  | str : String → MethodField
  | notStr : Option Json → MethodField

/-- Model of JsonRpcRequest.  The params property, when present, is a
reference (an index) into the params part of the store, so that a shallow
copy of a request shares its params object with the original, as the JS
spread copy in _handle does. -/
structure JsonRpcRequest : Type where
  jsonrpc : String
  method : MethodField
  id : Option RpcId
  params : Option Nat

/-- The mutable object store: request objects and params objects, addressed
by index, modelling JS references. -/
structure Store : Type where
  reqs : List JsonRpcRequest
  jsons : List Json

/-- Dereference a request object; out-of-range indices model undefined. -/
def getReq (st : Store) (rf : Nat) : JsonRpcRequest :=
  (st.reqs.get? rf).getD ⟨"2.0", MethodField.notStr none, none, none⟩

mutual
/-- Model of the EthereumRpcError class of the eth-rpc-errors collaborator:
a code, a message, and an optional structured data payload. -/
inductive EthereumRpcError : Type where
  | mk : Int → String → ErrData → EthereumRpcError
/-- The data payloads the engine (and the serializer) attach to errors. -/
inductive ErrData : Type where
  | noData : ErrData
  | requestOnly : JsonRpcRequest → ErrData
  | requestValue : Option Json → ErrData
  | withOriginalError : JsonRpcRequest → Thrown → ErrData
  | withThrownValue : JsonRpcRequest → Json → ErrData
  | withEndArg : JsonRpcRequest → Thrown → ErrData
  | withResponseError : JsonRpcRequest → Thrown → ErrData
  | serializedOriginal : Thrown → ErrData
/-- A JS value as thrown by middleware or stored in a response error slot:
an EthereumRpcError instance, a plain Error instance (with an optional
numeric code property), or a non-Error value. -/
inductive Thrown : Type where
  | eth : EthereumRpcError → Thrown
  | plainErr : Option Int → String → Thrown
  | nonError : Json → Thrown
end

/-- The code of an EthereumRpcError. -/
def EthereumRpcError.code : EthereumRpcError → Int
  | EthereumRpcError.mk c _ _ => c

/-- The message of an EthereumRpcError. -/
def EthereumRpcError.message : EthereumRpcError → String
  | EthereumRpcError.mk _ m _ => m

/-- The data of an EthereumRpcError. -/
def EthereumRpcError.data : EthereumRpcError → ErrData
  | EthereumRpcError.mk _ _ d => d

/-- Whether a thrown value is an instance of Error (EthereumRpcError
extends Error, plain Error instances are, other values are not). -/
def isErrorInstance : Thrown → Bool
  | Thrown.eth _ => true
  | Thrown.plainErr _ _ => true
  | Thrown.nonError _ => false

/-- JS truthiness of a thrown value: Error instances are objects and hence
truthy; other values follow Json truthiness. -/
def jsTruthyThrown : Thrown → Bool
  | Thrown.eth _ => true
  | Thrown.plainErr _ _ => true
  | Thrown.nonError v => jsTruthyJson v

/-- JS truthiness of an optional error slot or propagated error: an absent
value (undefined or null) is falsy, a present value follows its own
truthiness. -/
def optThrownTruthy : Option Thrown → Bool
  | none => false
  | some t => jsTruthyThrown t

/-- The JS typeof of a thrown value. -/
def jsTypeofThrown : Thrown → String
  | Thrown.eth _ => "object"
  | Thrown.plainErr _ _ => "object"
  | Thrown.nonError v => jsTypeof v

/-- errorCodes.rpc.internal from the eth-rpc-errors collaborator. -/
def internalCode : Int := -32603

/-- errorCodes.rpc.invalidRequest from the eth-rpc-errors collaborator. -/
def invalidRequestCode : Int := -32600

/-- Model of isValidCode from the eth-rpc-errors collaborator: a code is
valid when it is one of the reserved codes of the error table or lies in
the JSON-RPC server error range -32099 to -32000. -/
def isValidCode (c : Int) : Bool :=
  [(-32700 : Int), -32600, -32601, -32602, -32603,
    4001, 4100, 4200, 4900, 4901].contains c
  || (decide (-32099 ≤ c) && decide (c ≤ -32000))

/-- errorMessages.nonObjectRequest of the source. -/
def msg_nonObjectRequest (t : String) : String :=
  "Requests must be plain objects. Received: " ++ t

/-- errorMessages.nonStringMethod of the source. -/
def msg_nonStringMethod (t : String) : String :=
  "Must specify a string method. Received: " ++ t

/-- errorMessages.noAssignmentToResponse of the source. -/
def msg_noAssignmentToResponse : String :=
  "JsonRpcEngine: The response \"error\" property must not be directly assigned. Throw errors instead."

/-- errorMessages.noErrorOrResult of the source. -/
def msg_noErrorOrResult : String :=
  "JsonRpcEngine: Response has no error or result"

/-- errorMessages.noErrorsToEnd of the source. -/
def msg_noErrorsToEnd : String :=
  "JsonRpcEngine: \"end\" callback must not be passed any values. Received an error. Throw errors instead."

/-- errorMessages.noValuesToEnd of the source. -/
def msg_noValuesToEnd (t : String) : String :=
  "JsonRpcEngine: \"end\" callback must not be passed any values. Received: " ++ t ++ "."

/-- errorMessages.nothingEndedRequest of the source. -/
def msg_nothingEndedRequest : String :=
  "JsonRpcEngine: Nothing ended request."

/-- errorMessages.threwNonError of the source. -/
def msg_threwNonError : String :=
  "JsonRpcEngine: Middleware threw non-Error value."

/-- errorMessages.invalidReturnHandler of the source. -/
def msg_invalidReturnHandler (t : String) : String :=
  "JsonRpcEngine: Return handlers must be functions. Received: " ++ t ++ "."

/-- The synchronous throw message of handle when given a non-function
callback. -/
def msg_callbackMustBeFunction : String :=
  "\"callback\" must be a function if provided."

/-- Model of PendingJsonRpcResponse: result and error slots, where none
models an absent property (the source tests presence with the in operator
and removes result with delete). -/
structure PendingJsonRpcResponse : Type where
  jsonrpc : String
  id : Option RpcId
  result : Option Json
  error : Option Thrown

/-- Read a code property off a non-Error Json value (for the serializer). -/
def jsonObjGet : Json → String → Option Json
  | Json.obj kvs, k => (kvs.find? (fun p => p.1 == k)).map Prod.snd
  | _, _ => none

/-- Model of getMessageFromCode of the eth-rpc-errors collaborator: the
default message of a known code from the error-constants table, the
generic server-error message for the JSON-RPC server error range, and the
generic fallback message otherwise. -/
def getMessageFromCode (c : Int) : String :=
  if c == -32700 then
    "Invalid JSON was received by the server. An error occurred on the server while parsing the JSON text."
  else if c == -32600 then "The JSON sent is not a valid Request object."
  else if c == -32601 then "The method does not exist / is not available."
  else if c == -32602 then "Invalid method parameter(s)."
  else if c == -32603 then "Internal JSON-RPC error."
  else if c == -32000 then "Invalid input."
  else if c == -32001 then "Resource not found."
  else if c == -32002 then "Resource unavailable."
  else if c == -32003 then "Transaction rejected."
  else if c == -32004 then "Method not supported."
  else if c == -32005 then "Request limit exceeded."
  else if c == 4001 then "User rejected the request."
  else if c == 4100 then
    "The requested account and/or method has not been authorized by the user."
  else if c == 4200 then
    "The requested method is not supported by this Ethereum provider."
  else if c == 4900 then "The provider is disconnected from all chains."
  else if c == 4901 then "The provider is disconnected from the specified chain."
  else if decide (-32099 ≤ c) && decide (c ≤ -32000) then "Unspecified server error."
  else "Unspecified error message."

/-- Model of the external serializeError collaborator of eth-rpc-errors, as
used at the end of _handle: an EthereumRpcError instance with a valid code
serializes to itself (its serialize method keeps code, message and data),
while an invalid code falls back to the internal fallback error.  Any
other value carrying a valid integer code keeps that code, with its own
message when that is a nonempty string and the code-table message
otherwise; an invalid or absent code falls back to the internal fallback
error (code -32603, with the message of the value when it is a nonempty
string), keeping the original value in the data. -/
def serializeError (t : Thrown) : EthereumRpcError :=
  match t with
  | Thrown.eth e =>
    if isValidCode e.code then e
    else
      EthereumRpcError.mk internalCode
        (if e.message == "" then "Internal JSON-RPC error." else e.message)
        (ErrData.serializedOriginal t)
  | Thrown.plainErr c m =>
    match c with
    | some c0 =>
      if isValidCode c0 then
        if m == "" then
          EthereumRpcError.mk c0 (getMessageFromCode c0) (ErrData.serializedOriginal t)
        else EthereumRpcError.mk c0 m ErrData.noData
      else
        EthereumRpcError.mk internalCode (if m == "" then "Internal JSON-RPC error." else m)
          (ErrData.serializedOriginal t)
    | none =>
      EthereumRpcError.mk internalCode (if m == "" then "Internal JSON-RPC error." else m)
        (ErrData.serializedOriginal t)
  | Thrown.nonError v =>
    match jsonObjGet v "code" with
    | some (Json.num c0) =>
      if isValidCode c0 then
        match jsonObjGet v "message" with
        | some (Json.str m) =>
          if m == "" then
            EthereumRpcError.mk c0 (getMessageFromCode c0) (ErrData.serializedOriginal t)
          else EthereumRpcError.mk c0 m ErrData.noData
        | _ => EthereumRpcError.mk c0 (getMessageFromCode c0) (ErrData.serializedOriginal t)
      else EthereumRpcError.mk internalCode "Internal JSON-RPC error." (ErrData.serializedOriginal t)
    | _ => EthereumRpcError.mk internalCode "Internal JSON-RPC error." (ErrData.serializedOriginal t)

/-- What a return handler does when invoked: succeed, or throw a value. -/
inductive HandlerAct : Type where
  | ok : HandlerAct
  | throwV : Thrown → HandlerAct

/-- The value a middleware returns: a cleanup handler (tagged, with its
behaviour), or a non-function value. -/
inductive RetVal : Type where
  | handler : Nat → HandlerAct → RetVal
  | nonFunction : Json → RetVal

/-- A mutation a middleware performs before finishing: write the result or
error slot of the response, rewrite a top-level property of the request
object it received, or write through the shared params reference. -/
inductive MwMut : Type where
  | setResult : Json → MwMut
  | setError : Thrown → MwMut
  | setMethod : String → MwMut
  | setId : Option RpcId → MwMut
  | writeParams : Json → MwMut

/-- How a middleware finishes: return normally (optionally handing back a
value), call the end callback with an optional argument and then return
(any value returned after a successful end is ignored by the runner, as in
the source), throw, or call the end callback and then continue executing
(further mutations and another finishing step), which exercises the
first-wins deferred of the runner: the end call resolves the runner first
and whatever the middleware does afterwards can no longer change the
settled error and completion pair, though its side effects on the response
remain. -/
inductive MwFinish : Type where
  | ret : Option RetVal → MwFinish
  | callEnd : Option Thrown → Option RetVal → MwFinish
  | throwV : Thrown → MwFinish
  | callEndThen : Option Thrown → List MwMut → MwFinish → MwFinish

/-- A middleware description: a list of mutations, then a finishing step. -/
structure Middleware : Type where
  muts : List MwMut
  fin : MwFinish

/-- Apply one middleware mutation to the store and the pending response;
rf is the reference to the request object the middleware received. -/
def applyMut (st : Store) (rf : Nat) (res : PendingJsonRpcResponse) (m : MwMut) :
    Store × PendingJsonRpcResponse :=
  match m with
  | MwMut.setResult v => (st, { res with result := some v })
  | MwMut.setError e => (st, { res with error := some e })
  | MwMut.setMethod s =>
    ({ st with reqs := st.reqs.set rf { getReq st rf with method := MethodField.str s } }, res)
  | MwMut.setId i =>
    ({ st with reqs := st.reqs.set rf { getReq st rf with id := i } }, res)
  | MwMut.writeParams v =>
    match (getReq st rf).params with
    | none => (st, res)
    | some p => ({ st with jsons := st.jsons.set p v }, res)

/-- Apply a list of middleware mutations in order. -/
def applyMuts (st : Store) (rf : Nat) (res : PendingJsonRpcResponse) :
    List MwMut → Store × PendingJsonRpcResponse
  | [] => (st, res)
  | m :: ms =>
    let p := applyMut st rf res m
    applyMuts p.1 rf p.2 ms

/-- Model of JsonRpcEngine._validateEndState: returns the error thrown on a
contract violation, or none when the end call is acceptable.  An Error
argument raises noErrorsToEnd, any other truthy argument raises
noValuesToEnd, and a truthy directly assigned response error raises
noAssignmentToResponse; a falsy argument, and a response error slot that
is absent or holds a falsy value, are not flagged (the source tests both
with JS truthiness). -/
def _validateEndState (req : JsonRpcRequest) (res : PendingJsonRpcResponse)
    (endArg : Option Thrown) : Option EthereumRpcError :=
  let argErr : Option EthereumRpcError :=
    match endArg with
    | none => none
    | some t =>
      if isErrorInstance t then
        some (EthereumRpcError.mk internalCode msg_noErrorsToEnd (ErrData.withEndArg req t))
      else if jsTruthyThrown t then
        some (EthereumRpcError.mk internalCode (msg_noValuesToEnd (jsTypeofThrown t))
          (ErrData.withEndArg req t))
      else none
  match argErr with
  | some e => some e
  | none =>
    match res.error with
    | some re =>
      if jsTruthyThrown re then
        some (EthereumRpcError.mk internalCode msg_noAssignmentToResponse
          (ErrData.withResponseError req re))
      else none
    | none => none

/-- The coercion of JsonRpcEngine._processMiddlewareError: an
EthereumRpcError instance passes through unchanged; another Error instance
is wrapped into a new EthereumRpcError keeping a valid code (else the
internal code) and the message, with the request and the original error as
data; a non-Error value yields the internal threwNonError error with the
request and the thrown value as data. -/
def coerceThrown (req : JsonRpcRequest) (error : Thrown) : EthereumRpcError :=
  match error with
  | Thrown.eth e => e
  | Thrown.plainErr c m =>
    let code : Int :=
      match c with
      | some c0 => if isValidCode c0 then c0 else internalCode
      | none => internalCode
    EthereumRpcError.mk code m (ErrData.withOriginalError req error)
  | Thrown.nonError v =>
    EthereumRpcError.mk internalCode msg_threwNonError (ErrData.withThrownValue req v)

/-- Model of JsonRpcEngine._processMiddlewareError: sets the response error
slot to the coerced error. -/
def _processMiddlewareError (req : JsonRpcRequest) (res : PendingJsonRpcResponse)
    (error : Thrown) : PendingJsonRpcResponse :=
  { res with error := some (Thrown.eth (coerceThrown req error)) }

/-- The result of running one middleware (or the whole stack): the error of
the settled runner promise, the completion flag, the store and pending
response after the call, and the collected return handlers. -/
structure MwOut : Type where
  err : Option Thrown
  isComplete : Bool
  store : Store
  res : PendingJsonRpcResponse
  handlers : List (Nat × HandlerAct)

/-- State of the one-shot runner deferred of getDeferredPromise: none is
unresolved, some v is resolved with the error and completion pair v;
resolution is idempotent, only the first resolve has effect. -/
def resolveD (d : Option (Option Thrown × Bool)) (v : Option Thrown × Bool) :
    Option (Option Thrown × Bool) :=
  match d with
  | none => some v
  | some w => some w

/-- The result of executing the middleware body (the user function): the
store and response after its side effects, whether endCalled was set, the
deferred state after any resolution performed by a successful end call,
and either the returned value or the thrown value. -/
structure BodyOut : Type where
  store : Store
  res : PendingJsonRpcResponse
  endCalled : Bool
  deferred : Option (Option Thrown × Bool)
  outcome : Except Thrown (Option RetVal)

/-- Execute the finishing steps of a middleware body.  An end call runs
_validateEndState (whose throw aborts the body), and on success sets
endCalled and resolves the deferred with no error and completion
(first-wins); a callEndThen step then continues with further mutations and
another finishing step, modelling a middleware that keeps executing after
it called end. -/
def runFin (rf : Nat) : MwFinish → Store → PendingJsonRpcResponse → Bool →
    Option (Option Thrown × Bool) → BodyOut
  | MwFinish.ret rv, st, res, ec, d => ⟨st, res, ec, d, Except.ok rv⟩
  | MwFinish.throwV t, st, res, ec, d => ⟨st, res, ec, d, Except.error t⟩
  | MwFinish.callEnd arg rv, st, res, ec, d =>
    match _validateEndState (getReq st rf) res arg with
    | some e => ⟨st, res, ec, d, Except.error (Thrown.eth e)⟩
    | none => ⟨st, res, true, resolveD d (none, true), Except.ok rv⟩
  | MwFinish.callEndThen arg more fin2, st, res, ec, d =>
    match _validateEndState (getReq st rf) res arg with
    | some e => ⟨st, res, ec, d, Except.error (Thrown.eth e)⟩
    | none =>
      let p := applyMuts st rf res more
      runFin rf fin2 p.1 p.2 true (resolveD d (none, true))

/-- The handler-collection step of the runner for a middleware body that
returned normally without the response error check firing: a truthy
returned value must be a function (a handler, appended to the collection)
or the invalidReturnHandler error is thrown into the catch; a falsy
returned value is ignored; then the deferred is resolved (first-wins) with
no error and no completion. -/
def mwCollect (rf : Nat) (b : BodyOut) (rv : Option RetVal)
    (handlers : List (Nat × HandlerAct)) : MwOut :=
  match rv with
  | none =>
    let fin := (resolveD b.deferred (none, false)).getD (none, false)
    ⟨fin.1, fin.2, b.store, b.res, handlers⟩
  | some (RetVal.handler tag act) =>
    let fin := (resolveD b.deferred (none, false)).getD (none, false)
    ⟨fin.1, fin.2, b.store, b.res, handlers ++ [(tag, act)]⟩
  | some (RetVal.nonFunction v) =>
    if jsTruthyJson v then
      let req := getReq b.store rf
      let res2 := _processMiddlewareError req b.res
        (Thrown.eth (EthereumRpcError.mk internalCode
          (msg_invalidReturnHandler (jsTypeof v)) (ErrData.requestOnly req)))
      let fin := (resolveD b.deferred (res2.error, true)).getD (none, false)
      ⟨fin.1, fin.2, b.store, res2, handlers⟩
    else
      let fin := (resolveD b.deferred (none, false)).getD (none, false)
      ⟨fin.1, fin.2, b.store, b.res, handlers⟩

/-- Model of JsonRpcEngine._runMiddleware: run the middleware body
(mutations, then the finishing steps) against the request object at rf,
then settle exactly as the source does.  If the body threw, the catch
coerces the thrown value into the response error slot with
_processMiddlewareError and resolves the deferred with that error and
completion; first-wins resolution means an earlier successful end call has
already settled the runner with no error, so the coerced response error is
then invisible in the settled pair.  If the body returned with endCalled
set, nothing more happens and the runner is settled by the end call, any
returned value ignored.  If the body returned without endCalled, a truthy
response error value raises noAssignmentToResponse into the catch (a falsy
assigned error passes silently), and otherwise the returned value is
collected by mwCollect. -/
def _runMiddleware (st : Store) (res : PendingJsonRpcResponse) (rf : Nat)
    (mw : Middleware) (handlers : List (Nat × HandlerAct)) : MwOut :=
  let p := applyMuts st rf res mw.muts
  let b := runFin rf mw.fin p.1 p.2 false none
  let req := getReq b.store rf
  match b.outcome with
  | Except.error t =>
    let res2 := _processMiddlewareError req b.res t
    let fin := (resolveD b.deferred (res2.error, true)).getD (none, false)
    ⟨fin.1, fin.2, b.store, res2, handlers⟩
  | Except.ok rv =>
    if b.endCalled then
      let fin := (b.deferred).getD (none, false)
      ⟨fin.1, fin.2, b.store, b.res, handlers⟩
    else
      match b.res.error with
      | some re =>
        if jsTruthyThrown re then
          let res2 := _processMiddlewareError req b.res
            (Thrown.eth (EthereumRpcError.mk internalCode msg_noAssignmentToResponse
              (ErrData.withResponseError req re)))
          let fin := (resolveD b.deferred (res2.error, true)).getD (none, false)
          ⟨fin.1, fin.2, b.store, res2, handlers⟩
        else mwCollect rf b rv handlers
      | none => mwCollect rf b rv handlers

/-- The loop of JsonRpcEngine._runAllMiddleware: run middleware in order,
collecting handlers, and stop as soon as one reports completion. -/
def _runAllMiddlewareAux (st : Store) (res : PendingJsonRpcResponse) (rf : Nat) :
    List Middleware → List (Nat × HandlerAct) → MwOut
  | [], handlers => ⟨none, false, st, res, handlers⟩
  | mw :: rest, handlers =>
    let o := _runMiddleware st res rf mw handlers
    if o.isComplete then o
    else _runAllMiddlewareAux o.store o.res rf rest o.handlers

/-- Model of JsonRpcEngine._runAllMiddleware: run the stack, then reverse
the collected handlers (so the later unwind runs them last-registered
first). -/
def _runAllMiddleware (st : Store) (res : PendingJsonRpcResponse) (rf : Nat)
    (stack : List Middleware) : MwOut :=
  let o := _runAllMiddlewareAux st res rf stack []
  { o with handlers := o.handlers.reverse }

/-- Model of JsonRpcEngine._runReturnHandlers: invoke handlers serially,
each awaited before the next; a handler that throws aborts the loop and
the thrown value propagates.  Returns the invocation trace (handler tags
in invocation order) and the propagated throw, if any. -/
def _runReturnHandlers : List (Nat × HandlerAct) → List Nat × Option Thrown
  | [] => ([], none)
  | (tag, act) :: rest =>
    match act with
    | HandlerAct.ok =>
      let p := _runReturnHandlers rest
      (tag :: p.1, p.2)
    | HandlerAct.throwV t => ([tag], some t)

/-- Model of JsonRpcEngine._checkForCompletion: a response with neither
result nor error raises noErrorOrResult; otherwise a run that did not
complete raises nothingEndedRequest. -/
def _checkForCompletion (req : JsonRpcRequest) (res : PendingJsonRpcResponse)
    (isComplete : Bool) : Option EthereumRpcError :=
  if res.result.isNone && res.error.isNone then
    some (EthereumRpcError.mk internalCode msg_noErrorOrResult (ErrData.requestOnly req))
  else if !isComplete then
    some (EthereumRpcError.mk internalCode msg_nothingEndedRequest (ErrData.requestOnly req))
  else none

/-- The settled outcome of per-request processing: the propagated throw (if
any), the store, the response, and the handler invocation trace. -/
structure PipeOut : Type where
  err : Option Thrown
  store : Store
  res : PendingJsonRpcResponse
  trace : List Nat

/-- Model of JsonRpcEngine._processRequest: run the stack, check for
completion (throwing before any handler runs on violation), then run the
collected return handlers, re-throwing a handler throw, and finally
re-throw the middleware error when it is truthy (the source guards the
re-throw with a JS truthiness test; settled middleware errors are null or
EthereumRpcError instances, so the falsy branch is defensive). -/
def _processRequest (st : Store) (res : PendingJsonRpcResponse) (rf : Nat)
    (stack : List Middleware) : PipeOut :=
  let o := _runAllMiddleware st res rf stack
  let req := getReq o.store rf
  match _checkForCompletion req o.res o.isComplete with
  | some e => ⟨some (Thrown.eth e), o.store, o.res, []⟩
  | none =>
    let p := _runReturnHandlers o.handlers
    match p.2 with
    | some t => ⟨some t, o.store, o.res, p.1⟩
    | none =>
      match o.err with
      | none => ⟨none, o.store, o.res, p.1⟩
      | some t =>
        if jsTruthyThrown t then ⟨some t, o.store, o.res, p.1⟩
        else ⟨none, o.store, o.res, p.1⟩

/-- What the caller hands to handle for one request: a reference to a
request object in the store (a plain object), or a primitive (non-object)
value; a dangling reference models passing undefined. -/
inductive HandleArg : Type where
  | ref : Nat → HandleArg
  | primitive : Json → HandleArg

/-- Model of JsonRpcEngine._handle: validate the request shape, build the
invalid-request responses for non-objects and non-string methods, and
otherwise shallow-copy the request (a fresh request object sharing the
params reference), build a fresh pending response, run the pipeline, and
handle a propagated throw exactly as the source: only when the caught
error is truthy is the result removed, and only when the response error
slot is falsy (absent or holding a falsy value) is the serialized error
assigned; a falsy caught error (a handler throwing a falsy value) leaves
the response untouched.  The err field is the first callback argument (the
raw caught value, even when falsy), the res field the second; the function
always settles. -/
def _handle (st : Store) (stack : List Middleware) (a : HandleArg) : PipeOut :=
  match a with
  | HandleArg.primitive v =>
    let e : Thrown := Thrown.eth (EthereumRpcError.mk invalidRequestCode
      (msg_nonObjectRequest (jsTypeof v)) (ErrData.requestValue (some v)))
    ⟨some e, st, ⟨"2.0", none, none, some e⟩, []⟩
  | HandleArg.ref rq =>
    match st.reqs.get? rq with
    | none =>
      let e : Thrown := Thrown.eth (EthereumRpcError.mk invalidRequestCode
        (msg_nonObjectRequest "undefined") (ErrData.requestValue none))
      ⟨some e, st, ⟨"2.0", none, none, some e⟩, []⟩
    | some callerReq =>
      match callerReq.method with
      | MethodField.notStr mv =>
        let e : Thrown := Thrown.eth (EthereumRpcError.mk invalidRequestCode
          (msg_nonStringMethod (jsTypeofOpt mv)) (ErrData.requestOnly callerReq))
        ⟨some e, st, ⟨"2.0", callerReq.id, none, some e⟩, []⟩
      | MethodField.str _ =>
        let rf := st.reqs.length
        let st1 : Store := ⟨st.reqs ++ [callerReq], st.jsons⟩
        let res0 : PendingJsonRpcResponse := ⟨callerReq.jsonrpc, callerReq.id, none, none⟩
        let o := _processRequest st1 res0 rf stack
        match o.err with
        | none => o
        | some t =>
          if jsTruthyThrown t then
            let res2 := { o.res with result := none }
            let res3 :=
              if optThrownTruthy res2.error then res2
              else { res2 with error := some (Thrown.eth (serializeError t)) }
            ⟨some t, o.store, res3, o.trace⟩
          else ⟨some t, o.store, o.res, o.trace⟩

/-- Model of JsonRpcEngine._promiseHandle: wrap _handle in a promise that
resolves with the response, dropping the error argument. -/
def _promiseHandle (st : Store) (stack : List Middleware) (a : HandleArg) :
    PendingJsonRpcResponse × Store × List Nat :=
  let o := _handle st stack a
  (o.res, o.store, o.trace)

/-- Model of JsonRpcEngine._handleBatch: process each element with
_promiseHandle and collect the responses positionally (the store is
threaded through; interleaving of suspended phases is not modelled). -/
def _handleBatch (st : Store) (stack : List Middleware) :
    List HandleArg → List PendingJsonRpcResponse × Store
  | [] => ([], st)
  | a :: rest =>
    let o := _handle st stack a
    let p := _handleBatch o.store stack rest
    (o.res :: p.1, p.2)

/-- The value passed as the callback argument of handle: a function, or
some other JS value. -/
inductive CbArg : Type where
  | func : CbArg
  | val : Json → CbArg

/-- The first argument of handle: a single request-like value or an array
of them. -/
inductive TopArg : Type where
  | single : HandleArg → TopArg
  | batch : List HandleArg → TopArg

/-- The observable outcome of a call to handle: a synchronous throw, a
returned promise, or a callback invocation. -/
inductive HandleOutcome : Type where
  | threw : String → HandleOutcome
  | promiseSingle : PendingJsonRpcResponse → Store → List Nat → HandleOutcome
  | callbackSingle : Option Thrown → PendingJsonRpcResponse → Store → List Nat → HandleOutcome
  | promiseBatch : List PendingJsonRpcResponse → Store → HandleOutcome
  | callbackBatch : Option Thrown → Option (List PendingJsonRpcResponse) → Store → HandleOutcome

/-- Model of JsonRpcEngine.handle: throw synchronously when the callback
argument is truthy and not a function (a falsy callback is treated as
absent, as the source tests cb with truthiness), then dispatch on the
shape of the first argument and on callback presence. -/
def handle (st : Store) (stack : List Middleware) (arg : TopArg) (cb : Option CbArg) :
    HandleOutcome :=
  let cbTruthyNonFunc : Bool :=
    match cb with
    | some (CbArg.val v) => jsTruthyJson v
    | _ => false
  if cbTruthyNonFunc then HandleOutcome.threw msg_callbackMustBeFunction
  else
    let cbTruthy : Bool :=
      match cb with
      | some CbArg.func => true
      | some (CbArg.val v) => jsTruthyJson v
      | none => false
    match arg with
    | TopArg.batch xs =>
      let p := _handleBatch st stack xs
      if cbTruthy then HandleOutcome.callbackBatch none (some p.1) p.2
      else HandleOutcome.promiseBatch p.1 p.2
    | TopArg.single a =>
      if cbTruthy then
        let o := _handle st stack a
        HandleOutcome.callbackSingle o.err o.res o.store o.trace
      else
        let p := _promiseHandle st stack a
        HandleOutcome.promiseSingle p.1 p.2.1 p.2.2

/-- The code of the error held in a response error slot, when there is one
and it is a standardized error. -/
def errCodeOf : Option Thrown → Option Int
  | some (Thrown.eth e) => some e.code
  | _ => none

/-- The message of the error held in a response error slot, when there is
one and it is a standardized error. -/
def errMsgOf : Option Thrown → Option String
  | some (Thrown.eth e) => some e.message
  | _ => none

/-- Whether a handle outcome is a synchronous throw. -/
def HandleOutcome.isThrew : HandleOutcome → Bool
  | HandleOutcome.threw _ => true
  | _ => false

/-- Read the params object of a stored request through its reference: what
the caller observes when inspecting the params of their request object. -/
def observeParams (st : Store) (rq : Nat) : Option Json :=
  (st.reqs.get? rq).bind (fun r => r.params.bind (fun p => st.jsons.get? p))

/-- A request that throws an EthereumRpcError value (used by refutations
and witnesses below). -/
def r0def : JsonRpcRequest := ⟨"2.0", MethodField.str "m", some (RpcId.num 1), some 0⟩

/-- A store holding one request object whose params is the first params
object. -/
def st0def : Store := ⟨[r0def], [Json.num 7]⟩

/-- A plain (non-Error) object value carrying a valid code and a message. -/
def cex4def : Json := Json.obj [("code", Json.num (-32000)), ("message", Json.str "boom")]

/-- Stack of two middleware: A returns handler 1, B registers handler 2 by
returning it and also calls end (so the engine ignores the returned
handler). -/
def stackC3def : List Middleware :=
  [⟨[], MwFinish.ret (some (RetVal.handler 1 HandlerAct.ok))⟩,
   ⟨[MwMut.setResult Json.null], MwFinish.callEnd none (some (RetVal.handler 2 HandlerAct.ok))⟩]

/-- Stack of three middleware: A and B return handlers 1 and 2, C sets a
result and ends. -/
def stackABCdef : List Middleware :=
  [⟨[], MwFinish.ret (some (RetVal.handler 1 HandlerAct.ok))⟩,
   ⟨[], MwFinish.ret (some (RetVal.handler 2 HandlerAct.ok))⟩,
   ⟨[MwMut.setResult Json.null], MwFinish.callEnd none none⟩]

/-- Stack with one middleware throwing the plain object cex4def. -/
def stackC4def : List Middleware := [⟨[], MwFinish.throwV (Thrown.nonError cex4def)⟩]

/-- Stack where the first middleware returns handler a (succeeding), the
second returns handler b (which throws v when invoked), and the third sets
a result and ends. -/
def stackC6gen (a b : Nat) (v : Thrown) : List Middleware :=
  [⟨[], MwFinish.ret (some (RetVal.handler a HandlerAct.ok))⟩,
   ⟨[], MwFinish.ret (some (RetVal.handler b (HandlerAct.throwV v)))⟩,
   ⟨[MwMut.setResult Json.null], MwFinish.callEnd none none⟩]

/-- Stack with one middleware that sets a result, writes through the shared
params reference, and ends. -/
def stackC9def : List Middleware :=
  [⟨[MwMut.setResult (Json.num 1), MwMut.writeParams (Json.num 42)], MwFinish.callEnd none none⟩]

/-- A concrete EthereumRpcError instance with a valid code and a message. -/
def ethE0 : EthereumRpcError := EthereumRpcError.mk (-32000) "boom" ErrData.noData

/-- Stack whose first middleware returns a cleanup handler that throws the
falsy value 0 when invoked, and whose second middleware sets a result and
ends. -/
def stackC1cex : List Middleware :=
  [⟨[], MwFinish.ret (some (RetVal.handler 1
      (HandlerAct.throwV (Thrown.nonError (Json.num 0)))))⟩,
   ⟨[MwMut.setResult Json.null], MwFinish.callEnd none none⟩]

/-- Stack whose first middleware directly assigns the falsy value 0 to the
response error slot and returns, and whose second middleware sets a result
and ends. -/
def stackC2cex : List Middleware :=
  [⟨[MwMut.setError (Thrown.nonError (Json.num 0))], MwFinish.ret none⟩,
   ⟨[MwMut.setResult (Json.num 42)], MwFinish.callEnd none none⟩]

theorem listGetqSetNe {α : Type} (l : List α) (i j : Nat) (a : α) (h : i ≠ j) :
    (l.set i a).get? j = l.get? j := by
  induction l generalizing i j with
  | nil => simp
  | cons x xs ih =>
    cases i with
    | zero =>
      cases j with
      | zero => exact absurd rfl h
      | succ j => rfl
    | succ i =>
      cases j with
      | zero => rfl
      | succ j => exact ih i j (fun hh => h (congrArg Nat.succ hh))

theorem listGetqAppendLt {α : Type} (l r : List α) (i : Nat) (h : i < l.length) :
    (l ++ r).get? i = l.get? i := by
  induction l generalizing i with
  | nil => exact absurd h (by simp)
  | cons x xs ih =>
    cases i with
    | zero => rfl
    | succ i => exact ih i (Nat.lt_of_succ_lt_succ h)

theorem listGetqConcatLength {α : Type} (l : List α) (a : α) :
    (l ++ [a]).get? l.length = some a := by
  induction l with
  | nil => rfl
  | cons x xs ih => exact ih

theorem listGetqSomeLt {α : Type} (l : List α) (i : Nat) (a : α) (h : l.get? i = some a) :
    i < l.length := by
  induction l generalizing i with
  | nil => exact absurd h (by simp)
  | cons x xs ih =>
    cases i with
    | zero => exact Nat.succ_pos _
    | succ i => exact Nat.succ_lt_succ (ih i h)


theorem isValidCode_internalCode : isValidCode internalCode = true := by decide

theorem checkForCompletion_none (req : JsonRpcRequest) (res : PendingJsonRpcResponse)
    (isC : Bool) (h : _checkForCompletion req res isC = none) :
    (res.result.isNone && res.error.isNone) = false ∧ isC = true := by
  unfold _checkForCompletion at h
  by_cases hb : (res.result.isNone && res.error.isNone) = true
  · rw [if_pos hb] at h
    exact Option.noConfusion h
  · rw [if_neg hb] at h
    by_cases hc : (!isC) = true
    · rw [if_pos hc] at h
      exact Option.noConfusion h
    · refine ⟨?_, ?_⟩
      · cases hbb : (res.result.isNone && res.error.isNone) with
        | false => rfl
        | true => exact absurd hbb hb
      · cases hcc : isC with
        | true => rfl
        | false => exact absurd (by simp [hcc]) hc

theorem runReturnHandlers_ok (hs : List (Nat × HandlerAct))
    (h : ∀ x ∈ hs, x.2 = HandlerAct.ok) :
    _runReturnHandlers hs = (hs.map Prod.fst, none) := by
  induction hs with
  | nil => rfl
  | cons x rest ih =>
    obtain ⟨tag, act⟩ := x
    have hx : act = HandlerAct.ok := h (tag, act) (List.mem_cons_self _ _)
    subst hx
    have hr := ih (fun y hy => h y (List.mem_cons_of_mem _ hy))
    simp [_runReturnHandlers, hr]

theorem applyMut_reqs (st : Store) (rf : Nat) (res : PendingJsonRpcResponse) (m : MwMut)
    (i : Nat) (hi : i ≠ rf) :
    ((applyMut st rf res m).1).reqs.get? i = st.reqs.get? i := by
  cases m with
  | setResult v => rfl
  | setError e => rfl
  | setMethod s =>
    simp only [applyMut]
    exact listGetqSetNe _ _ _ _ (fun hh => hi hh.symm)
  | setId j =>
    simp only [applyMut]
    exact listGetqSetNe _ _ _ _ (fun hh => hi hh.symm)
  | writeParams v =>
    rcases hp : (getReq st rf).params with _ | p
    · simp [applyMut, hp]
    · simp [applyMut, hp]

theorem applyMuts_reqs (ms : List MwMut) :
    ∀ (st : Store) (res : PendingJsonRpcResponse) (rf i : Nat), i ≠ rf →
    ((applyMuts st rf res ms).1).reqs.get? i = st.reqs.get? i := by
  induction ms with
  | nil => intro st res rf i hi; rfl
  | cons m rest ih =>
    intro st res rf i hi
    have h1 := applyMut_reqs st rf res m i hi
    have h2 := ih (applyMut st rf res m).1 (applyMut st rf res m).2 rf i hi
    calc ((applyMuts st rf res (m :: rest)).1).reqs.get? i
        = ((applyMuts (applyMut st rf res m).1 rf (applyMut st rf res m).2 rest).1).reqs.get? i := rfl
      _ = ((applyMut st rf res m).1).reqs.get? i := h2
      _ = st.reqs.get? i := h1

theorem runFin_reqs (rf : Nat) (fin : MwFinish) :
    ∀ (st : Store) (res : PendingJsonRpcResponse) (ec : Bool)
    (d : Option (Option Thrown × Bool)) (i : Nat), i ≠ rf →
    ((runFin rf fin st res ec d).store).reqs.get? i = st.reqs.get? i := by
  induction fin with
  | ret rv => intro st res ec d i hi; rfl
  | throwV t => intro st res ec d i hi; rfl
  | callEnd arg rv =>
    intro st res ec d i hi
    rcases hv : _validateEndState (getReq st rf) res arg with _ | e
    · simp [runFin, hv]
    · simp [runFin, hv]
  | callEndThen arg more fin2 ih =>
    intro st res ec d i hi
    rcases hv : _validateEndState (getReq st rf) res arg with _ | e
    · have h1 := ih (applyMuts st rf res more).1 (applyMuts st rf res more).2 true
        (resolveD d (none, true)) i hi
      have h2 := applyMuts_reqs more st res rf i hi
      calc ((runFin rf (MwFinish.callEndThen arg more fin2) st res ec d).store).reqs.get? i
          = ((runFin rf fin2 (applyMuts st rf res more).1 (applyMuts st rf res more).2 true
              (resolveD d (none, true))).store).reqs.get? i := by
            simp [runFin, hv]
        _ = ((applyMuts st rf res more).1).reqs.get? i := h1
        _ = st.reqs.get? i := h2
    · simp [runFin, hv]

theorem mwCollect_store (rf : Nat) (b : BodyOut) (rv : Option RetVal)
    (hs : List (Nat × HandlerAct)) : (mwCollect rf b rv hs).store = b.store := by
  cases rv with
  | none => rfl
  | some rv0 =>
    cases rv0 with
    | handler tag act => rfl
    | nonFunction v =>
      by_cases hv : jsTruthyJson v = true
      · simp [mwCollect, hv]
      · simp [mwCollect, hv]

theorem runMiddleware_store_eq (st : Store) (res : PendingJsonRpcResponse) (rf : Nat)
    (mw : Middleware) (hs : List (Nat × HandlerAct)) :
    (_runMiddleware st res rf mw hs).store =
      (runFin rf mw.fin (applyMuts st rf res mw.muts).1
        (applyMuts st rf res mw.muts).2 false none).store := by
  rcases hout : (runFin rf mw.fin (applyMuts st rf res mw.muts).1
      (applyMuts st rf res mw.muts).2 false none).outcome with t | rv
  · simp [_runMiddleware, hout]
  · cases hec : (runFin rf mw.fin (applyMuts st rf res mw.muts).1
        (applyMuts st rf res mw.muts).2 false none).endCalled with
    | true => simp [_runMiddleware, hout, hec]
    | false =>
      rcases hre : (runFin rf mw.fin (applyMuts st rf res mw.muts).1
          (applyMuts st rf res mw.muts).2 false none).res.error with _ | re
      · simp [_runMiddleware, hout, hec, hre, mwCollect_store]
      · by_cases htr : jsTruthyThrown re = true
        · simp [_runMiddleware, hout, hec, hre, htr]
        · simp [_runMiddleware, hout, hec, hre, htr, mwCollect_store]

theorem runMiddleware_reqs (st : Store) (res : PendingJsonRpcResponse) (rf : Nat)
    (mw : Middleware) (hs : List (Nat × HandlerAct)) (i : Nat) (hi : i ≠ rf) :
    ((_runMiddleware st res rf mw hs).store).reqs.get? i = st.reqs.get? i := by
  rw [runMiddleware_store_eq]
  rw [runFin_reqs rf mw.fin _ _ _ _ i hi]
  exact applyMuts_reqs mw.muts st res rf i hi

theorem runAllAux_store (rf : Nat) (stack : List Middleware) :
    ∀ (st : Store) (res : PendingJsonRpcResponse) (hs : List (Nat × HandlerAct)) (i : Nat),
    i ≠ rf →
    ((_runAllMiddlewareAux st res rf stack hs).store).reqs.get? i = st.reqs.get? i := by
  induction stack with
  | nil => intro st res hs i hi; rfl
  | cons mw rest ih =>
    intro st res hs i hi
    have hmw : ((_runMiddleware st res rf mw hs).store).reqs.get? i = st.reqs.get? i :=
      runMiddleware_reqs st res rf mw hs i hi
    cases hc : (_runMiddleware st res rf mw hs).isComplete with
    | true =>
      have heq : _runAllMiddlewareAux st res rf (mw :: rest) hs =
          _runMiddleware st res rf mw hs := by
        simp [_runAllMiddlewareAux, hc]
      rw [heq]
      exact hmw
    | false =>
      have heq : _runAllMiddlewareAux st res rf (mw :: rest) hs =
          _runAllMiddlewareAux (_runMiddleware st res rf mw hs).store
            (_runMiddleware st res rf mw hs).res rf rest
            (_runMiddleware st res rf mw hs).handlers := by
        simp [_runAllMiddlewareAux, hc]
      rw [heq, ih _ _ _ _ hi]
      exact hmw

theorem runAll_store (st : Store) (res : PendingJsonRpcResponse) (rf : Nat)
    (stack : List Middleware) (i : Nat) (hi : i ≠ rf) :
    ((_runAllMiddleware st res rf stack).store).reqs.get? i = st.reqs.get? i := by
  have h0 := runAllAux_store rf stack st res [] i hi
  simpa [_runAllMiddleware] using h0

theorem processRequest_store (st : Store) (res : PendingJsonRpcResponse) (rf : Nat)
    (stack : List Middleware) :
    (_processRequest st res rf stack).store = (_runAllMiddleware st res rf stack).store := by
  rcases hchk : _checkForCompletion (getReq (_runAllMiddleware st res rf stack).store rf)
      (_runAllMiddleware st res rf stack).res
      (_runAllMiddleware st res rf stack).isComplete with _ | e
  · rcases hp : (_runReturnHandlers (_runAllMiddleware st res rf stack).handlers).2 with _ | t
    · rcases herr : (_runAllMiddleware st res rf stack).err with _ | t2
      · simp [_processRequest, hchk, hp, herr]
      · by_cases ht : jsTruthyThrown t2 = true
        · simp [_processRequest, hchk, hp, herr, ht]
        · simp [_processRequest, hchk, hp, herr, ht]
    · simp [_processRequest, hchk, hp]
  · simp [_processRequest, hchk]

theorem processRequest_cases (st : Store) (res : PendingJsonRpcResponse) (rf : Nat)
    (stack : List Middleware) :
    ((((_processRequest st res rf stack).res.result).isNone &&
      ((_processRequest st res rf stack).res.error).isNone) = false) ∨
    (∃ e : EthereumRpcError, (_processRequest st res rf stack).err = some (Thrown.eth e)) := by
  rcases hchk : _checkForCompletion (getReq (_runAllMiddleware st res rf stack).store rf)
      (_runAllMiddleware st res rf stack).res
      (_runAllMiddleware st res rf stack).isComplete with _ | e
  · left
    have hcc := checkForCompletion_none _ _ _ hchk
    have hres : (_processRequest st res rf stack).res =
        (_runAllMiddleware st res rf stack).res := by
      rcases hp : (_runReturnHandlers (_runAllMiddleware st res rf stack).handlers).2 with _ | t
      · rcases herr : (_runAllMiddleware st res rf stack).err with _ | t2
        · simp [_processRequest, hchk, hp, herr]
        · by_cases ht : jsTruthyThrown t2 = true
          · simp [_processRequest, hchk, hp, herr, ht]
          · simp [_processRequest, hchk, hp, herr, ht]
      · simp [_processRequest, hchk, hp]
    rw [hres]
    exact hcc.1
  · right
    refine ⟨e, ?_⟩
    simp [_processRequest, hchk]

theorem handle_truthy_err (st : Store) (stack : List Middleware) (rq : Nat)
    (r : JsonRpcRequest) (s : String) (t : Thrown)
    (hg : st.reqs.get? rq = some r) (hm : r.method = MethodField.str s)
    (ho : (_processRequest ⟨st.reqs ++ [r], st.jsons⟩ ⟨r.jsonrpc, r.id, none, none⟩
      st.reqs.length stack).err = some t)
    (ht : jsTruthyThrown t = true) :
    (_handle st stack (HandleArg.ref rq)).res.result = none ∧
    ((_handle st stack (HandleArg.ref rq)).res.error).isSome = true ∧
    (_handle st stack (HandleArg.ref rq)).err = some t := by
  rcases hre : (_processRequest ⟨st.reqs ++ [r], st.jsons⟩ ⟨r.jsonrpc, r.id, none, none⟩
      st.reqs.length stack).res.error with _ | e
  · refine ⟨?_, ?_, ?_⟩ <;>
    · simp only [_handle, hg, hm, ho]
      simp [ht, optThrownTruthy, hre]
  · by_cases hte : jsTruthyThrown e = true
    · refine ⟨?_, ?_, ?_⟩ <;>
      · simp only [_handle, hg, hm, ho]
        simp [ht, optThrownTruthy, hre, hte]
    · refine ⟨?_, ?_, ?_⟩ <;>
      · simp only [_handle, hg, hm, ho]
        simp [ht, optThrownTruthy, hre, hte]

/-- C1 counterexample: a cleanup handler that throws the falsy value 0
settles the per-request processing with a non-null error while the
finalized response holds no error and still holds its result (the source
skips result removal and error serialization because the caught error is
falsy), refuting the claimed equivalence between a non-null error and a
response error. -/
theorem C1_counterexample :
    (_handle st0def stackC1cex (HandleArg.ref 0)).err =
      some (Thrown.nonError (Json.num 0)) ∧
    (_handle st0def stackC1cex (HandleArg.ref 0)).err ≠ none ∧
    (_handle st0def stackC1cex (HandleArg.ref 0)).res.error = none ∧
    (_handle st0def stackC1cex (HandleArg.ref 0)).res.result = some Json.null := by
  refine ⟨rfl, ?_, rfl, rfl⟩
  intro h
  have h1 : (_handle st0def stackC1cex (HandleArg.ref 0)).err =
      some (Thrown.nonError (Json.num 0)) := rfl
  rw [h] at h1
  exact Option.noConfusion h1

/-- C1 amended: for every single request processed without a callback,
handle returns a promise that never rejects and always resolves with the
response of the per-request processing, and whenever the error the
per-request processing passes to its callback is truthy, the response
holds an error.  The original two-way correspondence fails in both
directions: a cleanup handler throwing a falsy value settles with a
non-null falsy error and no response error, and a middleware that throws
or assigns the response error after a successful end call settles with a
null error while the response holds an error. -/
theorem C1_amended (st : Store) (stack : List Middleware) (a : HandleArg) :
    handle st stack (TopArg.single a) none =
      HandleOutcome.promiseSingle (_handle st stack a).res (_handle st stack a).store
        (_handle st stack a).trace ∧
    (optThrownTruthy (_handle st stack a).err = true →
      ((_handle st stack a).res.error).isSome = true) := by
  constructor
  · rfl
  · cases a with
    | primitive v => intro _; rfl
    | ref rq =>
      rcases hg : st.reqs.get? rq with _ | r
      · intro _
        simp only [_handle, hg]
        rfl
      · rcases hm : r.method with s | mv
        · rcases ho : (_processRequest ⟨st.reqs ++ [r], st.jsons⟩
              ⟨r.jsonrpc, r.id, none, none⟩ st.reqs.length stack).err with _ | t
          · intro h
            have he : (_handle st stack (HandleArg.ref rq)).err = none := by
              simp only [_handle, hg, hm, ho]
            rw [he] at h
            simp [optThrownTruthy] at h
          · by_cases ht : jsTruthyThrown t = true
            · intro _
              exact (handle_truthy_err st stack rq r s t hg hm ho ht).2.1
            · intro h
              have he : (_handle st stack (HandleArg.ref rq)).err = some t := by
                simp only [_handle, hg, hm, ho]
                split
                · rfl
                · rfl
              rw [he] at h
              simp [optThrownTruthy] at h
              exact absurd h ht
        · intro _
          simp only [_handle, hg, hm]
          rfl

/-- C1 witness: the amended truthy-error implication applied to the
empty-stack failure, whose propagated error is a truthy EthereumRpcError
and whose response therefore holds an error. -/
theorem C1_amended_witness :
    optThrownTruthy (_handle st0def [] (HandleArg.ref 0)).err = true ∧
    ((_handle st0def [] (HandleArg.ref 0)).res.error).isSome = true :=
  ⟨rfl, (C1_amended st0def [] (HandleArg.ref 0)).2 rfl⟩

/-- C2 counterexample: a middleware directly assigns the falsy value 0 to
the response error slot and returns; the truthiness checks of the source
do not flag it, a second middleware sets a result and ends, and the caller
receives a finalized response holding BOTH a result and an error field,
refuting exactly-one. -/
theorem C2_counterexample :
    (_handle st0def stackC2cex (HandleArg.ref 0)).err = none ∧
    (_handle st0def stackC2cex (HandleArg.ref 0)).res.result = some (Json.num 42) ∧
    (_handle st0def stackC2cex (HandleArg.ref 0)).res.error =
      some (Thrown.nonError (Json.num 0)) := ⟨rfl, rfl, rfl⟩

/-- C2 amended: for every request processed by handle, the finalized
response never has neither field (the completion check enforces at least
one of result and error), and on the engine failure path (a truthy
propagated error) the result is removed and an error is present.  The
never-both half of the original claim fails: a middleware directly
assigning a falsy error value, or throwing or assigning after a
successful end call, produces a response carrying both fields. -/
theorem C2_amended (st : Store) (stack : List Middleware) (a : HandleArg) :
    ((((_handle st stack a).res.result).isSome ||
      ((_handle st stack a).res.error).isSome) = true) ∧
    (optThrownTruthy (_handle st stack a).err = true →
      (_handle st stack a).res.result = none ∧
      ((_handle st stack a).res.error).isSome = true) := by
  cases a with
  | primitive v => exact ⟨rfl, fun _ => ⟨rfl, rfl⟩⟩
  | ref rq =>
    rcases hg : st.reqs.get? rq with _ | r
    · constructor
      · simp only [_handle, hg]
        rfl
      · intro _
        constructor
        · simp only [_handle, hg]
        · simp only [_handle, hg]
          rfl
    · rcases hm : r.method with s | mv
      · constructor
        · rcases ho : (_processRequest ⟨st.reqs ++ [r], st.jsons⟩
              ⟨r.jsonrpc, r.id, none, none⟩ st.reqs.length stack).err with _ | t
          · have heq : _handle st stack (HandleArg.ref rq) =
                _processRequest ⟨st.reqs ++ [r], st.jsons⟩ ⟨r.jsonrpc, r.id, none, none⟩
                  st.reqs.length stack := by
              simp only [_handle, hg, hm, ho]
            rw [heq]
            rcases processRequest_cases ⟨st.reqs ++ [r], st.jsons⟩
                ⟨r.jsonrpc, r.id, none, none⟩ st.reqs.length stack with hl | ⟨e, he⟩
            · rcases h1 : (_processRequest ⟨st.reqs ++ [r], st.jsons⟩
                  ⟨r.jsonrpc, r.id, none, none⟩ st.reqs.length stack).res.result with _ | rv
              · rcases h2 : (_processRequest ⟨st.reqs ++ [r], st.jsons⟩
                    ⟨r.jsonrpc, r.id, none, none⟩ st.reqs.length stack).res.error with _ | ev
                · rw [h1, h2] at hl
                  simp at hl
                · simp
              · simp
            · rw [ho] at he
              exact Option.noConfusion he
          · by_cases ht : jsTruthyThrown t = true
            · have h3 := handle_truthy_err st stack rq r s t hg hm ho ht
              rw [h3.2.1]
              simp
            · have heq : (_handle st stack (HandleArg.ref rq)).res =
                  (_processRequest ⟨st.reqs ++ [r], st.jsons⟩ ⟨r.jsonrpc, r.id, none, none⟩
                    st.reqs.length stack).res := by
                simp only [_handle, hg, hm, ho]
                rw [if_neg ht]
              rw [heq]
              rcases processRequest_cases ⟨st.reqs ++ [r], st.jsons⟩
                  ⟨r.jsonrpc, r.id, none, none⟩ st.reqs.length stack with hl | ⟨e, he⟩
              · rcases h1 : (_processRequest ⟨st.reqs ++ [r], st.jsons⟩
                    ⟨r.jsonrpc, r.id, none, none⟩ st.reqs.length stack).res.result with _ | rv
                · rcases h2 : (_processRequest ⟨st.reqs ++ [r], st.jsons⟩
                      ⟨r.jsonrpc, r.id, none, none⟩ st.reqs.length stack).res.error with _ | ev
                  · rw [h1, h2] at hl
                    simp at hl
                  · simp
                · simp
              · rw [ho] at he
                have h4 : t = Thrown.eth e := Option.some.inj he
                exact absurd (by rw [h4]; rfl) ht
        · intro h
          rcases ho : (_processRequest ⟨st.reqs ++ [r], st.jsons⟩
              ⟨r.jsonrpc, r.id, none, none⟩ st.reqs.length stack).err with _ | t
          · exfalso
            have he : (_handle st stack (HandleArg.ref rq)).err = none := by
              simp only [_handle, hg, hm, ho]
            rw [he] at h
            simp [optThrownTruthy] at h
          · by_cases ht : jsTruthyThrown t = true
            · have h3 := handle_truthy_err st stack rq r s t hg hm ho ht
              exact ⟨h3.1, h3.2.1⟩
            · exfalso
              have he : (_handle st stack (HandleArg.ref rq)).err = some t := by
                simp only [_handle, hg, hm, ho]
                split
                · rfl
                · rfl
              rw [he] at h
              simp [optThrownTruthy] at h
              exact absurd h ht
      · constructor
        · simp only [_handle, hg, hm]
          rfl
        · intro _
          constructor
          · simp only [_handle, hg, hm]
          · simp only [_handle, hg, hm]
            rfl

/-- C2 witness: the amended failure-path implication applied to the
empty-stack failure, where the propagated error is truthy, the result is
removed and the response error is set. -/
theorem C2_amended_witness :
    optThrownTruthy (_handle st0def [] (HandleArg.ref 0)).err = true ∧
    (_handle st0def [] (HandleArg.ref 0)).res.result = none ∧
    ((_handle st0def [] (HandleArg.ref 0)).res.error).isSome = true := by
  refine ⟨rfl, ?_, ?_⟩
  · exact ((C2_amended st0def [] (HandleArg.ref 0)).2 rfl).1
  · exact ((C2_amended st0def [] (HandleArg.ref 0)).2 rfl).2

/-- C4 counterexample: a middleware throws the plain (non-Error) object
with code -32000 and message boom; the code is valid and a message is
present, yet the final response error is not that value: it is the
internal threwNonError error. -/
theorem C4_counterexample :
    isValidCode (-32000) = true ∧
    jsonObjGet cex4def "message" = some (Json.str "boom") ∧
    (_handle st0def stackC4def (HandleArg.ref 0)).res.error ≠
      some (Thrown.nonError cex4def) ∧
    errMsgOf (_handle st0def stackC4def (HandleArg.ref 0)).res.error =
      some msg_threwNonError := by
  refine ⟨by decide, rfl, ?_, rfl⟩
  intro h
  have h1 : errMsgOf (_handle st0def stackC4def (HandleArg.ref 0)).res.error =
      some msg_threwNonError := rfl
  rw [h] at h1
  simp [errMsgOf] at h1

/-- C4 amended: the coercion passes a thrown value through unchanged
exactly when it is an EthereumRpcError instance (which by construction
carries a valid code and a message); for such a throw the final response
error is the thrown value itself, whatever mutations the middleware
performed first. -/
theorem C4_amended (st : Store) (ms : List MwMut) (e : EthereumRpcError)
    (rq : Nat) (r : JsonRpcRequest) (s : String)
    (hg : st.reqs.get? rq = some r) (hm : r.method = MethodField.str s) :
    (_handle st [⟨ms, MwFinish.throwV (Thrown.eth e)⟩] (HandleArg.ref rq)).err =
      some (Thrown.eth e) ∧
    (_handle st [⟨ms, MwFinish.throwV (Thrown.eth e)⟩] (HandleArg.ref rq)).res.error =
      some (Thrown.eth e) := by
  simp only [_handle, hg, hm]
  simp [_processRequest, _runAllMiddleware, _runAllMiddlewareAux, _runMiddleware,
    runFin, resolveD, _processMiddlewareError, coerceThrown, _checkForCompletion,
    _runReturnHandlers, jsTruthyThrown, optThrownTruthy]

/-- C4 witness: the amended pass-through at a concrete EthereumRpcError. -/
theorem C4_amended_witness :
    (_handle st0def [⟨[], MwFinish.throwV (Thrown.eth ethE0)⟩] (HandleArg.ref 0)).err =
      some (Thrown.eth ethE0) ∧
    (_handle st0def [⟨[], MwFinish.throwV (Thrown.eth ethE0)⟩] (HandleArg.ref 0)).res.error =
      some (Thrown.eth ethE0) :=
  C4_amended st0def [] ethE0 0 r0def "m" rfl rfl

/-- C5 counterexample: with an empty stack the processing failure carries
the noErrorOrResult message, not the nothingEndedRequest message the claim
names. -/
theorem C5_counterexample :
    errMsgOf (_handle st0def [] (HandleArg.ref 0)).res.error = some msg_noErrorOrResult ∧
    errMsgOf (_handle st0def [] (HandleArg.ref 0)).res.error ≠ some msg_nothingEndedRequest := by
  constructor
  · rfl
  · intro h
    have h1 : errMsgOf (_handle st0def [] (HandleArg.ref 0)).res.error =
        some msg_noErrorOrResult := rfl
    rw [h] at h1
    have h2 : msg_nothingEndedRequest = msg_noErrorOrResult := Option.some.inj h1
    exact absurd h2 (by decide)

/-- C5 amended: for every valid request processed by an engine with an
empty middleware stack, processing fails with an internal-coded error,
namely the noErrorOrResult error, because the missing result-or-error
check precedes the nothing-ended-request check. -/
theorem C5_amended (st : Store) (rq : Nat) (r : JsonRpcRequest) (s : String)
    (hg : st.reqs.get? rq = some r) (hm : r.method = MethodField.str s) :
    errCodeOf (_handle st [] (HandleArg.ref rq)).res.error = some internalCode ∧
    errMsgOf (_handle st [] (HandleArg.ref rq)).res.error = some msg_noErrorOrResult ∧
    ((_handle st [] (HandleArg.ref rq)).err).isSome = true := by
  simp only [_handle, hg, hm]
  simp [_processRequest, _runAllMiddleware, _runAllMiddlewareAux, _checkForCompletion,
    _runReturnHandlers, serializeError, errCodeOf, errMsgOf, EthereumRpcError.code,
    EthereumRpcError.message, isValidCode_internalCode, jsTruthyThrown, optThrownTruthy]

/-- C5 witness: the amended empty-stack failure at a concrete request. -/
theorem C5_amended_witness :
    errCodeOf (_handle st0def [] (HandleArg.ref 0)).res.error = some internalCode ∧
    errMsgOf (_handle st0def [] (HandleArg.ref 0)).res.error = some msg_noErrorOrResult ∧
    ((_handle st0def [] (HandleArg.ref 0)).err).isSome = true :=
  C5_amended st0def 0 r0def "m" rfl rfl

/-- C10 counterexample: a provided callback that is not a function but is
falsy (the number 0) does not make handle throw; the call proceeds on the
promise path. -/
theorem C10_counterexample :
    jsTruthyJson (Json.num 0) = false ∧
    (handle st0def [] (TopArg.single (HandleArg.ref 0))
      (some (CbArg.val (Json.num 0)))).isThrew = false := by
  exact ⟨rfl, rfl⟩

/-- C10 amended: for every invocation of handle whose second argument is
truthy and not a function, handle throws synchronously with the callback
message, before any request validation or middleware processing (the
throw happens for every first argument and stack). -/
theorem C10_amended (st : Store) (stack : List Middleware) (arg : TopArg) (v : Json)
    (ht : jsTruthyJson v = true) :
    handle st stack arg (some (CbArg.val v)) =
      HandleOutcome.threw msg_callbackMustBeFunction := by
  simp [handle, ht]

/-- C10 witness: the amended synchronous throw at a concrete truthy
non-function callback. -/
theorem C10_amended_witness :
    handle st0def [] (TopArg.single (HandleArg.ref 0)) (some (CbArg.val (Json.num 5))) =
      HandleOutcome.threw msg_callbackMustBeFunction :=
  C10_amended st0def [] (TopArg.single (HandleArg.ref 0)) (Json.num 5) rfl

/-- C3 counterexample: in the stack stackC3def, middleware A returns
handler 1 and middleware B returns handler 2 while also calling end; the
engine ignores the handler returned by the ending middleware, so only
handler 1 runs and handler 2 is never invoked (the claim expects handler 2
to run before handler 1). -/
theorem C3_counterexample :
    (_handle st0def stackC3def (HandleArg.ref 0)).trace = [1] ∧
    2 ∉ (_handle st0def stackC3def (HandleArg.ref 0)).trace := by
  refine ⟨rfl, ?_⟩
  intro h
  rw [show (_handle st0def stackC3def (HandleArg.ref 0)).trace = [1] from rfl] at h
  simp at h

/-- C3 amended: when the completion check passes and all collected handlers
succeed, the handlers run serially in the reverse of collection order: the
trace of per-request processing equals the tags of the reversed handler
collection (the handlers field of the stack run, which the engine reverses
before the unwind); a middleware that calls end contributes no handler, so
a last-registered handler comes from the last middleware that returned one
without ending. -/
theorem C3_amended (st : Store) (res : PendingJsonRpcResponse) (rf : Nat)
    (stack : List Middleware)
    (hchk : _checkForCompletion (getReq (_runAllMiddleware st res rf stack).store rf)
      (_runAllMiddleware st res rf stack).res
      (_runAllMiddleware st res rf stack).isComplete = none)
    (hok : ∀ x ∈ (_runAllMiddleware st res rf stack).handlers, x.2 = HandlerAct.ok) :
    (_processRequest st res rf stack).trace =
      ((_runAllMiddleware st res rf stack).handlers).map Prod.fst := by
  have hr := runReturnHandlers_ok _ hok
  rcases herr : (_runAllMiddleware st res rf stack).err with _ | t
  · simp [_processRequest, hchk, hr, herr]
  · by_cases ht : jsTruthyThrown t = true
    · simp [_processRequest, hchk, hr, herr, ht]
    · simp [_processRequest, hchk, hr, herr, ht]

/-- C3 witness: with handlers 1 and 2 registered by the first two
middleware and a third middleware ending, the unwind runs handler 2 then
handler 1. -/
theorem C3_amended_witness :
    (_processRequest ⟨[r0def], [Json.num 7]⟩ ⟨"2.0", some (RpcId.num 1), none, none⟩ 0
      stackABCdef).trace = [2, 1] := by
  have hok : ∀ x ∈ (_runAllMiddleware ⟨[r0def], [Json.num 7]⟩
      ⟨"2.0", some (RpcId.num 1), none, none⟩ 0 stackABCdef).handlers,
      x.2 = HandlerAct.ok := by
    intro x hx
    have e : (_runAllMiddleware ⟨[r0def], [Json.num 7]⟩
        ⟨"2.0", some (RpcId.num 1), none, none⟩ 0 stackABCdef).handlers =
        [(2, HandlerAct.ok), (1, HandlerAct.ok)] := rfl
    rw [e] at hx
    simp at hx
    rcases hx with rfl | rfl
    · rfl
    · rfl
  exact (C3_amended ⟨[r0def], [Json.num 7]⟩ ⟨"2.0", some (RpcId.num 1), none, none⟩ 0
    stackABCdef rfl hok).trans rfl

/-- C6: when a cleanup handler throws during the unwind, the
earlier-registered handlers do not run (the trace holds only the throwing
handler), and the thrown value propagates out of the unwind unchanged: the
error the per-request processing passes to the callback is the raw thrown
value, not a coerced standardized error. -/
theorem C6_handler_throw_aborts (st : Store) (rq : Nat) (r : JsonRpcRequest) (s : String)
    (a b : Nat) (v : Thrown) (hg : st.reqs.get? rq = some r)
    (hm : r.method = MethodField.str s) (hab : a ≠ b) :
    (_handle st (stackC6gen a b v) (HandleArg.ref rq)).err = some v ∧
    (_handle st (stackC6gen a b v) (HandleArg.ref rq)).trace = [b] ∧
    a ∉ (_handle st (stackC6gen a b v) (HandleArg.ref rq)).trace := by
  have hair : (_processRequest ⟨st.reqs ++ [r], st.jsons⟩ ⟨r.jsonrpc, r.id, none, none⟩
      st.reqs.length (stackC6gen a b v)).err = some v ∧
      (_processRequest ⟨st.reqs ++ [r], st.jsons⟩ ⟨r.jsonrpc, r.id, none, none⟩
        st.reqs.length (stackC6gen a b v)).trace = [b] := by
    constructor
    · simp [stackC6gen, _processRequest, _runAllMiddleware, _runAllMiddlewareAux,
        _runMiddleware, runFin, resolveD, mwCollect, applyMuts, applyMut,
        _validateEndState, _checkForCompletion, _runReturnHandlers]
    · simp [stackC6gen, _processRequest, _runAllMiddleware, _runAllMiddlewareAux,
        _runMiddleware, runFin, resolveD, mwCollect, applyMuts, applyMut,
        _validateEndState, _checkForCompletion, _runReturnHandlers]
  have h1 : (_handle st (stackC6gen a b v) (HandleArg.ref rq)).err = some v := by
    simp only [_handle, hg, hm, hair.1]
    split
    · rfl
    · rfl
  have h2 : (_handle st (stackC6gen a b v) (HandleArg.ref rq)).trace = [b] := by
    simp only [_handle, hg, hm, hair.1]
    split
    · exact hair.2
    · exact hair.2
  refine ⟨h1, h2, ?_⟩
  rw [h2]
  simp only [List.mem_singleton]
  exact hab

/-- C6 witness: the abort of the unwind at a concrete store, with handler 2
throwing the string bang and handler 1 skipped. -/
theorem C6_witness :
    (_handle st0def (stackC6gen 1 2 (Thrown.nonError (Json.str "bang")))
      (HandleArg.ref 0)).err = some (Thrown.nonError (Json.str "bang")) ∧
    (_handle st0def (stackC6gen 1 2 (Thrown.nonError (Json.str "bang")))
      (HandleArg.ref 0)).trace = [2] ∧
    1 ∉ (_handle st0def (stackC6gen 1 2 (Thrown.nonError (Json.str "bang")))
      (HandleArg.ref 0)).trace :=
  C6_handler_throw_aborts st0def 0 r0def "m" 1 2 (Thrown.nonError (Json.str "bang"))
    rfl rfl (by decide)

/-- C7: when a middleware throws a non-Error value, the final response
error is the internal threwNonError error whose data carries the request
and the thrown value. -/
theorem C7_non_error_thrown (st : Store) (rq : Nat) (r : JsonRpcRequest) (s : String)
    (v : Json) (hg : st.reqs.get? rq = some r) (hm : r.method = MethodField.str s) :
    (_handle st [⟨[], MwFinish.throwV (Thrown.nonError v)⟩] (HandleArg.ref rq)).res.error =
      some (Thrown.eth (EthereumRpcError.mk internalCode msg_threwNonError
        (ErrData.withThrownValue r v))) ∧
    (_handle st [⟨[], MwFinish.throwV (Thrown.nonError v)⟩] (HandleArg.ref rq)).err =
      some (Thrown.eth (EthereumRpcError.mk internalCode msg_threwNonError
        (ErrData.withThrownValue r v))) := by
  have hgr : getReq ⟨st.reqs ++ [r], st.jsons⟩ st.reqs.length = r := by
    show ((st.reqs ++ [r]).get? st.reqs.length).getD _ = r
    rw [listGetqConcatLength]
    rfl
  simp only [_handle, hg, hm]
  simp [_processRequest, _runAllMiddleware, _runAllMiddlewareAux, _runMiddleware,
    runFin, resolveD, _processMiddlewareError, coerceThrown, applyMuts,
    _checkForCompletion, _runReturnHandlers, jsTruthyThrown, optThrownTruthy, hgr]

/-- C7 witness: the non-Error throw synthesis at the concrete thrown value
oops. -/
theorem C7_witness :
    (_handle st0def [⟨[], MwFinish.throwV (Thrown.nonError (Json.str "oops"))⟩]
      (HandleArg.ref 0)).res.error =
      some (Thrown.eth (EthereumRpcError.mk internalCode msg_threwNonError
        (ErrData.withThrownValue r0def (Json.str "oops")))) ∧
    (_handle st0def [⟨[], MwFinish.throwV (Thrown.nonError (Json.str "oops"))⟩]
      (HandleArg.ref 0)).err =
      some (Thrown.eth (EthereumRpcError.mk internalCode msg_threwNonError
        (ErrData.withThrownValue r0def (Json.str "oops")))) :=
  C7_non_error_thrown st0def 0 r0def "m" (Json.str "oops") rfl rfl

/-- C8: when a middleware calls end with a truthy argument, the request
fails and its final response carries an internal-coded error; the truthy
value is never silently accepted. -/
theorem C8_end_truthy_internal (st : Store) (rq : Nat) (r : JsonRpcRequest) (s : String)
    (ms : List MwMut) (arg : Thrown) (rv : Option RetVal)
    (hg : st.reqs.get? rq = some r) (hm : r.method = MethodField.str s)
    (ht : jsTruthyThrown arg = true) :
    errCodeOf (_handle st [⟨ms, MwFinish.callEnd (some arg) rv⟩]
      (HandleArg.ref rq)).res.error = some internalCode ∧
    ((_handle st [⟨ms, MwFinish.callEnd (some arg) rv⟩] (HandleArg.ref rq)).err).isSome
      = true := by
  cases arg with
  | eth e0 =>
    simp only [_handle, hg, hm]
    simp [_processRequest, _runAllMiddleware, _runAllMiddlewareAux, _runMiddleware,
      runFin, resolveD, _validateEndState, isErrorInstance, _processMiddlewareError,
      coerceThrown, _checkForCompletion, _runReturnHandlers, errCodeOf,
      EthereumRpcError.code, jsTruthyThrown, optThrownTruthy]
  | plainErr c0 m0 =>
    simp only [_handle, hg, hm]
    simp [_processRequest, _runAllMiddleware, _runAllMiddlewareAux, _runMiddleware,
      runFin, resolveD, _validateEndState, isErrorInstance, _processMiddlewareError,
      coerceThrown, _checkForCompletion, _runReturnHandlers, errCodeOf,
      EthereumRpcError.code, jsTruthyThrown, optThrownTruthy]
  | nonError v0 =>
    have ht2 : jsTruthyJson v0 = true := by simpa [jsTruthyThrown] using ht
    simp only [_handle, hg, hm]
    simp [_processRequest, _runAllMiddleware, _runAllMiddlewareAux, _runMiddleware,
      runFin, resolveD, _validateEndState, isErrorInstance, ht2,
      _processMiddlewareError, coerceThrown, _checkForCompletion, _runReturnHandlers,
      errCodeOf, EthereumRpcError.code, jsTruthyThrown, optThrownTruthy]

/-- C8 witness: end called with the truthy non-function string x yields an
internal-coded response error. -/
theorem C8_witness :
    errCodeOf (_handle st0def
      [⟨[], MwFinish.callEnd (some (Thrown.nonError (Json.str "x"))) none⟩]
      (HandleArg.ref 0)).res.error = some internalCode ∧
    ((_handle st0def [⟨[], MwFinish.callEnd (some (Thrown.nonError (Json.str "x"))) none⟩]
      (HandleArg.ref 0)).err).isSome = true :=
  C8_end_truthy_internal st0def 0 r0def "m" [] (Thrown.nonError (Json.str "x")) none
    rfl rfl (by decide)

/-- C9 counterexample: a middleware writes through the shared params
reference of the request it received; because the engine copies the
request only shallowly, the caller observes the mutated params object
after the call. -/
theorem C9_counterexample :
    observeParams st0def 0 = some (Json.num 7) ∧
    observeParams (_handle st0def stackC9def (HandleArg.ref 0)).store 0 = some (Json.num 42) ∧
    observeParams (_handle st0def stackC9def (HandleArg.ref 0)).store 0 ≠
      observeParams st0def 0 := by
  refine ⟨rfl, rfl, ?_⟩
  intro h
  rw [show observeParams (_handle st0def stackC9def (HandleArg.ref 0)).store 0 =
      some (Json.num 42) from rfl,
    show observeParams st0def 0 = some (Json.num 7) from rfl] at h
  have h2 := Option.some.inj h
  injection h2 with h3
  omega

/-- C9 amended: the caller request object itself is never mutated: the
engine processes a shallow copy, so after handle returns the request
object at the caller reference is unchanged whatever top-level mutations
middleware performed on the copy; only writes through shared nested
values such as the params object are observable. -/
theorem C9_amended_top_level (st : Store) (stack : List Middleware) (rq : Nat)
    (r : JsonRpcRequest) (hg : st.reqs.get? rq = some r) :
    ((_handle st stack (HandleArg.ref rq)).store).reqs.get? rq = some r := by
  have hlt : rq < st.reqs.length := listGetqSomeLt _ _ _ hg
  rcases hm : r.method with s | mv
  · have hne : rq ≠ st.reqs.length := Nat.ne_of_lt hlt
    have hst : ((_handle st stack (HandleArg.ref rq)).store) =
        (_processRequest ⟨st.reqs ++ [r], st.jsons⟩ ⟨r.jsonrpc, r.id, none, none⟩
          st.reqs.length stack).store := by
      rcases ho : (_processRequest ⟨st.reqs ++ [r], st.jsons⟩ ⟨r.jsonrpc, r.id, none, none⟩
          st.reqs.length stack).err with _ | t
      · simp only [_handle, hg, hm, ho]
      · simp only [_handle, hg, hm, ho]
        split
        · rfl
        · rfl
    rw [hst, processRequest_store]
    have h2 := runAll_store ⟨st.reqs ++ [r], st.jsons⟩ ⟨r.jsonrpc, r.id, none, none⟩
      st.reqs.length stack rq hne
    rw [h2]
    show (st.reqs ++ [r]).get? rq = some r
    rw [listGetqAppendLt _ _ _ hlt]
    exact hg
  · have hst : ((_handle st stack (HandleArg.ref rq)).store) = st := by
      simp only [_handle, hg, hm]
    rw [hst]
    exact hg

/-- C9 witness: under the params-writing stack, the caller request object
at reference 0 is unchanged after handle. -/
theorem C9_amended_witness :
    ((_handle st0def stackC9def (HandleArg.ref 0)).store).reqs.get? 0 = some r0def :=
  C9_amended_top_level st0def stackC9def 0 r0def rfl
